import Mathlib

/-!
# sshat-client: the chat client's update loop and command interpreter

A shallow embedding of `main.go`.

* Go strings are byte sequences, so `GoString` is `List UInt8`; string
  literals of the source are written `str "..."` (their UTF-8 bytes).
* The libraries the program calls (the bubbles text input, `encoding/json`,
  lipgloss rendering, the Unicode tables behind `strings.ToUpper`) are taken
  as the fields of `Env`; nothing is assumed about them unless a theorem
  states it as a hypothesis.
* `Update` has a value receiver and returns the changed copy, so it is a
  function from the model to the new model; the socket is the list of frames
  written; `log.Fatalf` (process exit) is the result `none`.
* The three `rng.Intn(156)` results of `generatePaleColorHex` are an explicit
  argument (`Draws`).
-/

namespace SshatClient

/-! ## Go strings -/

/-- A Go string: an immutable sequence of bytes. -/
abbrev GoString := List UInt8

/-- The bytes of a string literal of the source (UTF-8). -/
def str (s : String) : GoString := s.data.flatMap String.utf8EncodeChar

/-- The loop of `strings.Split(s, " ")`: `cur` is the piece being read. -/
def splitFrom (cur : GoString) : GoString → List GoString
  | [] => [cur]
  | c :: cs => if c = 32 then cur :: splitFrom [] cs else splitFrom (cur ++ [c]) cs

/-- `strings.Split(s, " ")`: the pieces of `s` between single spaces; always
at least one piece. -/
def Split (s : GoString) : List GoString := splitFrom [] s

/-- The ASCII branch of `strings.ToUpper`: `c -= 'a' - 'A'` on `'a'..'z'`. -/
def upperByte (c : UInt8) : UInt8 := if 97 ≤ c ∧ c ≤ 122 then c - 32 else c

/-- The test `c >= utf8.RuneSelf` of `strings.ToUpper` fails on every byte. -/
def isASCII (s : GoString) : Bool := s.all (fun c => decide (c < 128))

/-- `strings.ToUpper`: byte-wise on an all-ASCII string, and otherwise
`strings.Map(unicode.ToUpper, s)`, which is the argument `mapUpper`. -/
def ToUpper (mapUpper : GoString → GoString) (s : GoString) : GoString :=
  if isASCII s then s.map upperByte else mapUpper s

/-! ## `fmt.Sprintf("%02X", n)` -/

/-- One upper-case hexadecimal digit, `"0123456789ABCDEF"[d]`. -/
def upperHexDigit (d : Nat) : UInt8 :=
  if d < 10 then (48 + d).toUInt8 else (55 + d).toUInt8

/-- The hexadecimal digits of `n`, most significant first (`fuel` bounds the
number of digits). -/
def hexDigitsUpper : Nat → Nat → GoString
  | 0, _ => []
  | fuel + 1, n =>
    if n < 16 then [upperHexDigit n]
    else hexDigitsUpper fuel (n / 16) ++ [upperHexDigit (n % 16)]

/-- The verb `%02X` on a non-negative integer: upper-case hexadecimal,
padded on the left with `'0'` to at least two characters. -/
def fmt02X (n : Nat) : GoString :=
  let ds := hexDigitsUpper (n + 1) n
  List.replicate (2 - ds.length) 48 ++ ds

/-- The results of the three `rng.Intn(156)` calls of one
`generatePaleColorHex` call, in call order. -/
structure Draws where
  r : Nat
  g : Nat
  b : Nat
deriving DecidableEq, Repr

/-- Every draw is a possible result of `rng.Intn(156)`. -/
def Draws.inRange (d : Draws) : Prop := d.r < 156 ∧ d.g < 156 ∧ d.b < 156

instance (d : Draws) : Decidable d.inRange := by
  unfold Draws.inRange; exact inferInstance

/-- `generatePaleColorHex` (main.go 43-52). -/
def generatePaleColorHex (d : Draws) : GoString :=
  let r := d.r + 100
  let g := d.g + 100
  let b := d.b + 100
  str "#" ++ fmt02X r ++ fmt02X g ++ fmt02X b

/-! ## Messages and their formatting -/

/-- `type Message struct` (main.go 18-24). -/
structure Message where
  RoleName : GoString
  RoleColor : GoString
  SenderName : GoString
  SenderColor : GoString
  Content : List UInt8
deriving DecidableEq, Repr

/-- The properties of a `lipgloss.Style` that `Format` sets. -/
structure Style where
  foreground : Option GoString
  background : Option GoString
  paddingRight : Int
  paddingLeft : Int
  marginRight : Int
deriving DecidableEq, Repr

/-- `lipgloss.NewStyle()`. -/
def NewStyle : Style := ⟨none, none, 0, 0, 0⟩

/-- `usernameStyle` of `Format` (main.go 27). -/
def usernameStyle (cm : Message) : Style :=
  { NewStyle with foreground := some cm.SenderColor }

/-- `roleStyle` of `Format` (main.go 29-34). -/
def roleStyle (cm : Message) : Style :=
  { NewStyle with
      foreground := some (str "#FFFFFF")
      background := some cm.RoleColor
      paddingRight := 1
      paddingLeft := 1
      marginRight := 1 }

/-- `Message.Format` (main.go 26-41); `Render` is `lipgloss.Style.Render`. -/
def Message.Format (Render : Style → GoString → GoString) (cm : Message) : GoString :=
  if cm.RoleName = [] then
    Render (usernameStyle cm) cm.SenderName ++ str ": " ++ cm.Content
  else
    Render (roleStyle cm) cm.RoleName ++ Render (usernameStyle cm) cm.SenderName
      ++ str ": " ++ cm.Content

/-! ## Events -/

/-- The `tea.KeyType` values `Update` distinguishes; every other key
(runes, backspace, arrows left and right, ...) is `other`. -/
inductive KeyType where
  | KeyCtrlC
  | KeyEnter
  | KeyUp
  | KeyDown
  | other (code : Nat)
deriving DecidableEq, Repr

/-- The `tea.Msg` values: the cases of the type switch of `Update`, and
`other` for every message type it does not name. -/
inductive Msg where
  | KeyMsg (type : KeyType) (runes : List Char)
  | WindowSizeMsg (Width : Int) (Height : Int)
  | Message (msg : Message)
  | other (tag : Nat)
deriving DecidableEq, Repr

/-- A `tea.Cmd`: `nil`, `tea.Quit`, or a command of the text input. -/
inductive Cmd where
  | nil
  | Quit
  | ofInput (id : Nat)
deriving DecidableEq, Repr

/-! ## The libraries -/

/-- The library functions `main.go` calls, over the state `TI` of the
`textinput.Model`. -/
structure Env (TI : Type) where
  /-- `textinput.Model.Value`. -/
  Value : TI → GoString
  /-- `textinput.Model.SetValue`. -/
  SetValue : TI → GoString → TI
  /-- The assignment to the field `Width` of the text input. -/
  setWidth : TI → Int → TI
  /-- `textinput.Model.Update`. -/
  inputUpdate : TI → Msg → TI × Cmd
  /-- `json.Marshal` on a `Message`; `none` is `err != nil`. -/
  Marshal : Message → Option GoString
  /-- `strings.Map(unicode.ToUpper, s)`. -/
  mapUpper : GoString → GoString
  /-- `lipgloss.Style.Render`. -/
  Render : Style → GoString → GoString

/-! ## The model -/

/-- `websocket.TextMessage`. -/
def TextMessage : Nat := 1

/-- The connection: the `WriteMessage` calls made on it so far (message type
and data), oldest first. -/
structure Conn where
  written : List (Nat × GoString)
deriving DecidableEq, Repr

/-- `Conn.WriteMessage`; its error result is discarded by the caller. -/
def Conn.WriteMessage (c : Conn) (messageType : Nat) (data : GoString) : Conn :=
  { c with written := c.written ++ [(messageType, data)] }

/-- `type Main struct` (main.go 72-85). `styles` and `program` are left out:
`Update` and `checkCommand` neither read nor write them. -/
structure Main (TI : Type) where
  input : TI
  messages : List Message
  width : Int
  height : Int
  scrollPos : Int
  user : Conn
  username : GoString
  usernameColor : GoString
  role : GoString
  roleColor : GoString
deriving DecidableEq, Repr

/-- Wrap-around of the 64-bit Go `int`. -/
def wrapInt (x : Int) : Int := (x + 2 ^ 63) % 2 ^ 64 - 2 ^ 63

variable {TI : Type}

/-- `New` (main.go 88-95); `input0` is the text input after
`textinput.New()`, `Focus()` and the two field assignments; `user` is still
nil, a connection nothing was written to. -/
def New (input0 : TI) : Main TI :=
  { input := input0, messages := [], width := 0, height := 0, scrollPos := 0,
    user := ⟨[]⟩, username := [], usernameColor := [], role := [], roleColor := [] }

/-- The model `main` hands to `tea.NewProgram` (main.go 223-238), with
`randomColor` the result of its `generatePaleColorHex()` call. -/
def startup (input0 : TI) (conn : Conn) (randomColor : GoString) : Main TI :=
  { New input0 with
      user := conn
      username := str "Anonymous"
      usernameColor := randomColor
      role := []
      roleColor := randomColor }

/-- `Main.checkCommand` (main.go 102-129). -/
def checkCommand (E : Env TI) (rnd : Draws) (m : Main TI) (command : GoString) : Main TI :=
  let splitCommand := Split command
  let commandName := splitCommand.headD []
  let commandArg := if splitCommand.length > 1 then splitCommand.getD 1 [] else []
  if commandName = str "nick" then
    { m with username := commandArg }
  else if commandName = str "role" then
    let role := ToUpper E.mapUpper commandArg
    { m with role := role }
  else if commandName = str "color" then
    { m with usernameColor := commandArg, roleColor := commandArg }
  else if commandName = str "nickcolor" then
    { m with usernameColor := commandArg }
  else if commandName = str "rolecolor" then
    { m with roleColor := commandArg }
  else if commandName = str "randomcolor" then
    let randomColor := generatePaleColorHex rnd
    { m with usernameColor := randomColor, roleColor := randomColor }
  else m

/-- The struct literal `newMessage` of `Update` (main.go 143-149), for the
input text `value`. -/
def newMessage (m : Main TI) (value : GoString) : Message :=
  { RoleName := m.role
    RoleColor := m.roleColor
    SenderName := m.username
    SenderColor := m.usernameColor
    Content := value }

/-- The end of `Update` (main.go 176-178): the event goes to the text input. -/
def forwardInput (E : Env TI) (m : Main TI) (msg : Msg) : Option (Main TI × Cmd) :=
  let r := E.inputUpdate m.input msg
  some ({ m with input := r.1 }, r.2)

/-- `Main.Update` (main.go 132-179). `none`: the process has exited in
`log.Fatalf`. -/
def Update (E : Env TI) (rnd : Draws) (m : Main TI) (msg : Msg) : Option (Main TI × Cmd) :=
  match msg with
  | .KeyMsg .KeyCtrlC _ => some (m, Cmd.Quit)
  | .KeyMsg .KeyEnter _ =>
    match E.Value m.input with
    | [] => forwardInput E m msg
    | c :: rest =>
      if c = 47 then
        let m := checkCommand E rnd m rest
        forwardInput E { m with input := E.SetValue m.input [] } msg
      else
        match E.Marshal (newMessage m (c :: rest)) with
        | none => none
        | some msgByte =>
          let m := { m with user := m.user.WriteMessage TextMessage msgByte }
          forwardInput E { m with input := E.SetValue m.input [] } msg
  | .KeyMsg .KeyUp _ =>
    forwardInput E (if m.scrollPos > 0 then { m with scrollPos := m.scrollPos - 1 } else m) msg
  | .KeyMsg .KeyDown _ =>
    forwardInput E
      (if m.scrollPos < (m.messages.length : Int) - 1 then
        { m with scrollPos := m.scrollPos + 1 } else m) msg
  | .KeyMsg (.other _) _ => forwardInput E m msg
  | .WindowSizeMsg w h =>
    let m := { m with width := w, height := h }
    forwardInput E { m with input := E.setWidth m.input (wrapInt (m.width - 7)) } msg
  | .Message x => forwardInput E { m with messages := m.messages ++ [x] } msg
  | .other _ => forwardInput E m msg

/-! ## Runs of the event loop -/

/-- The events delivered to `Update` one after the other, each with the
random draws its handler would see; `none` once the process has exited. -/
def run (E : Env TI) : List (Draws × Msg) → Main TI → Option (Main TI)
  | [], m => some m
  | (rnd, msg) :: rest, m =>
    match Update E rnd m msg with
    | none => none
    | some (m1, _) => run E rest m1

/-- The Enter key. -/
def enter : Msg := .KeyMsg .KeyEnter []

/-- One submitted line: Enter arrives when the text input is in state `ti`
(the keys typed before it reach only the text input). -/
def submitLine (E : Env TI) (rnd : Draws) (ti : TI) (m : Main TI) : Option (Main TI) :=
  (Update E rnd { m with input := ti } enter).map Prod.fst

/-- A sequence of submitted lines. -/
def session (E : Env TI) : List (Draws × TI) → Main TI → Option (Main TI)
  | [], m => some m
  | (rnd, ti) :: rest, m =>
    match submitLine E rnd ti m with
    | none => none
    | some m1 => session E rest m1

/-- The messages among the events, in order. -/
def inbound : List (Draws × Msg) → List Message
  | [] => []
  | (_, .Message x) :: rest => x :: inbound rest
  | _ :: rest => inbound rest

/-! ## A concrete instance of the libraries

Used to run the model on concrete inputs. -/

/-- A text input reduced to its text and its width. -/
structure LineInput where
  value : GoString
  Width : Int
deriving DecidableEq, Repr

/-- An encoding of a `Message` standing for its JSON text: the five fields,
each followed by a line feed. -/
def sampleMarshal (x : Message) : GoString :=
  x.RoleName ++ [10] ++ x.RoleColor ++ [10] ++ x.SenderName ++ [10] ++ x.SenderColor ++ [10]
    ++ x.Content ++ [10]

/-- Libraries over `LineInput`: other keys append their runes to the text,
Enter and the arrows leave it alone, encoding never fails, rendering adds the
padding and the margin as spaces and no colour. -/
def sampleEnv : Env LineInput :=
  { Value := fun t => t.value
    SetValue := fun t v => { t with value := v }
    setWidth := fun t w => { t with Width := w }
    inputUpdate := fun t msg =>
      match msg with
      | .KeyMsg (.other _) runes => ({ t with value := t.value ++ str (String.mk runes) }, Cmd.nil)
      | _ => (t, Cmd.nil)
    Marshal := fun x => some (sampleMarshal x)
    mapUpper := fun s => s
    Render := fun st s =>
      List.replicate st.paddingLeft.toNat 32 ++ s ++ List.replicate st.paddingRight.toNat 32
        ++ List.replicate st.marginRight.toNat 32 }

/-- A text input holding `s`. -/
def typed (s : String) : LineInput := ⟨str s, 0⟩

/-- Some message, for the examples. -/
def sampleMessage (s : String) : Message :=
  { RoleName := [], RoleColor := str "#AABBCC", SenderName := str "Bob",
    SenderColor := str "#AABBCC", Content := str s }

/-- No randomness needed: all three draws are 0. -/
def zeroDraws : Draws := ⟨0, 0, 0⟩

/-- The scroll offset after an event, read off the two arrow-key cases of
`Update` (main.go 159-166). -/
def scrollAfter (m : Main TI) : Msg → Int
  | .KeyMsg .KeyUp _ => if m.scrollPos > 0 then m.scrollPos - 1 else m.scrollPos
  | .KeyMsg .KeyDown _ =>
    if m.scrollPos < (m.messages.length : Int) - 1 then m.scrollPos + 1 else m.scrollPos
  | _ => m.scrollPos

/-- The scroll offset is within `[0, max(0, len(messages)-1)]`. -/
def scrollInv (m : Main TI) : Prop :=
  0 ≤ m.scrollPos ∧ m.scrollPos ≤ max 0 ((m.messages.length : Int) - 1)

instance (m : Main TI) : Decidable (scrollInv m) := by
  unfold scrollInv; exact inferInstance

/-! ## Reading colour values -/

/-- The byte is one of `0-9`, `A-F`. -/
def isUpperHexDigit (c : UInt8) : Bool := (48 ≤ c && c ≤ 57) || (65 ≤ c && c ≤ 70)

/-- The byte is a hexadecimal digit in either letter case. -/
def isHexDigit (c : UInt8) : Bool := isUpperHexDigit c || (97 ≤ c && c ≤ 102)

/-- The value of an upper-case hexadecimal digit. -/
def hexValue (c : UInt8) : Option Nat :=
  if 48 ≤ c ∧ c ≤ 57 then some (c.toNat - 48)
  else if 65 ≤ c ∧ c ≤ 70 then some (c.toNat - 55)
  else none

/-- The channel value written by a pair of upper-case hexadecimal digits. -/
def parseHexPair : GoString → Option Nat
  | [hi, lo] =>
    match hexValue hi, hexValue lo with
    | some a, some b => some (16 * a + b)
    | _, _ => none
  | _ => none

/-- A well-formed colour value `#RRGGBB`: seven bytes, `#` and six
hexadecimal digits. -/
def wellFormedColor (s : GoString) : Bool :=
  match s with
  | [] => false
  | c :: ds => c == 35 && ds.length == 6 && ds.all isHexDigit

/-! ## The two segments of a formatted line -/

/-- The sender segment: the name rendered in the foreground colour `color`. -/
def styledSender (Render : Style → GoString → GoString) (name color : GoString) : GoString :=
  Render ⟨some color, none, 0, 0, 0⟩ name

/-- The role badge: the role name rendered white on the background `color`,
one column of padding on each side and one column of margin on the right. -/
def badge (Render : Style → GoString → GoString) (role color : GoString) : GoString :=
  Render ⟨some (str "#FFFFFF"), some color, 1, 1, 1⟩ role

/-! ## Colour arguments of typed lines -/

/-- The command name is one of `color`, `nickcolor`, `rolecolor`. -/
def isColorCommand (name : GoString) : Bool :=
  name == str "color" || name == str "nickcolor" || name == str "rolecolor"

/-- The command (the line after its `/`) is none of `color`, `nickcolor`,
`rolecolor`, or its argument is a well-formed colour value. -/
def commandColorOk (command : GoString) : Bool :=
  !isColorCommand ((Split command).headD []) || wellFormedColor ((Split command).getD 1 [])

/-- The typed line, if it is a command line, satisfies `commandColorOk`. -/
def lineColorOk : GoString → Bool
  | [] => true
  | c :: rest => c != 47 || commandColorOk rest

/-- Both colour attributes are well-formed colour values. -/
def colorsOk (m : Main TI) : Bool :=
  wellFormedColor m.roleColor && wellFormedColor m.usernameColor

/-! ## Frame lemmas -/

theorem checkCommand_frame (E : Env TI) (rnd : Draws) (m : Main TI) (command : GoString) :
    (checkCommand E rnd m command).messages = m.messages ∧
    (checkCommand E rnd m command).scrollPos = m.scrollPos ∧
    (checkCommand E rnd m command).user = m.user ∧
    (checkCommand E rnd m command).input = m.input ∧
    (checkCommand E rnd m command).width = m.width ∧
    (checkCommand E rnd m command).height = m.height := by
  simp only [checkCommand]
  split_ifs <;> simp

/-- A key other than Ctrl-C, Enter, Up and Down only reaches the text input. -/
theorem Update_other_key (E : Env TI) (rnd : Draws) (m : Main TI) (code : Nat)
    (runes : List Char) :
    Update E rnd m (.KeyMsg (.other code) runes) =
      some ({ m with input := (E.inputUpdate m.input (.KeyMsg (.other code) runes)).1 },
        (E.inputUpdate m.input (.KeyMsg (.other code) runes)).2) := rfl

/-- What `Update` does to the message log: an inbound message is appended,
every other event leaves the log alone. -/
theorem Update_messages (E : Env TI) (rnd : Draws) (m m1 : Main TI) (msg : Msg) (cmd : Cmd)
    (h : Update E rnd m msg = some (m1, cmd)) :
    m1.messages = m.messages ++ inbound [(rnd, msg)] := by
  cases msg with
  | KeyMsg k r =>
    cases k with
    | KeyEnter =>
      simp only [Update] at h
      split at h
      · simp [forwardInput] at h; obtain ⟨rfl, -⟩ := h; simp [inbound]
      · split_ifs at h
        · simp [forwardInput] at h; obtain ⟨rfl, -⟩ := h
          simp [inbound, (checkCommand_frame E rnd m _).1]
        · split at h
          · simp at h
          · simp [forwardInput] at h; obtain ⟨rfl, -⟩ := h; simp [inbound]
    | KeyUp =>
      simp only [Update, forwardInput] at h
      split_ifs at h <;> (simp at h; obtain ⟨rfl, -⟩ := h; simp [inbound])
    | KeyDown =>
      simp only [Update, forwardInput] at h
      split_ifs at h <;> (simp at h; obtain ⟨rfl, -⟩ := h; simp [inbound])
    | _ => simp [Update, forwardInput] at h; obtain ⟨rfl, -⟩ := h; simp [inbound]
  | _ => simp [Update, forwardInput] at h; obtain ⟨rfl, -⟩ := h; simp [inbound]

/-- What `Update` does to the scroll offset. -/
theorem Update_scrollPos (E : Env TI) (rnd : Draws) (m m1 : Main TI) (msg : Msg) (cmd : Cmd)
    (h : Update E rnd m msg = some (m1, cmd)) :
    m1.scrollPos = scrollAfter m msg := by
  cases msg with
  | KeyMsg k r =>
    cases k with
    | KeyEnter =>
      simp only [Update] at h
      split at h
      · simp [forwardInput] at h; obtain ⟨rfl, -⟩ := h; rfl
      · split_ifs at h
        · simp [forwardInput] at h; obtain ⟨rfl, -⟩ := h
          simp [scrollAfter, (checkCommand_frame E rnd m _).2.1]
        · split at h
          · simp at h
          · simp [forwardInput] at h; obtain ⟨rfl, -⟩ := h; rfl
    | KeyUp =>
      simp only [Update, forwardInput] at h
      split_ifs at h with h0 <;> (simp at h; obtain ⟨rfl, -⟩ := h; simp [scrollAfter, h0])
    | KeyDown =>
      simp only [Update, forwardInput] at h
      split_ifs at h with h0 <;> (simp at h; obtain ⟨rfl, -⟩ := h; simp [scrollAfter, h0])
    | _ => simp [Update, forwardInput] at h; obtain ⟨rfl, -⟩ := h; rfl
  | _ => simp [Update, forwardInput] at h; obtain ⟨rfl, -⟩ := h; rfl

/-- `Update` exits the process only when `json.Marshal` fails. -/
theorem Update_isSome (E : Env TI) (hM : ∀ x, (E.Marshal x).isSome = true) (rnd : Draws)
    (m : Main TI) (msg : Msg) : (Update E rnd m msg).isSome = true := by
  cases msg with
  | KeyMsg k r =>
    cases k with
    | KeyEnter =>
      simp only [Update]
      split
      · rfl
      · split_ifs
        · rfl
        · rename_i c rest _ _
          have := hM (newMessage m (c :: rest))
          split
          · rename_i h0; rw [h0] at this; simp at this
          · rfl
    | _ => rfl
  | _ => rfl

theorem run_isSome (E : Env TI) (hM : ∀ x, (E.Marshal x).isSome = true)
    (evs : List (Draws × Msg)) : ∀ m : Main TI, (run E evs m).isSome = true := by
  induction evs with
  | nil => intro m; rfl
  | cons e rest ih =>
    intro m
    obtain ⟨rnd, msg⟩ := e
    have := Update_isSome E hM rnd m msg
    rw [Option.isSome_iff_exists] at this
    obtain ⟨⟨m1, cmd⟩, h1⟩ := this
    simp only [run, h1]
    exact ih m1

theorem Update_scrollInv (E : Env TI) (rnd : Draws) (m m1 : Main TI) (msg : Msg) (cmd : Cmd)
    (h : Update E rnd m msg = some (m1, cmd)) (hi : scrollInv m) : scrollInv m1 := by
  have hs := Update_scrollPos E rnd m m1 msg cmd h
  have hm := Update_messages E rnd m m1 msg cmd h
  have hl := congrArg List.length hm
  clear h hm
  unfold scrollInv at hi ⊢
  obtain ⟨h0, h1⟩ := hi
  rw [hs]
  cases msg with
  | KeyMsg k r =>
    simp only [inbound, List.append_nil] at hl
    rw [hl]
    cases k with
    | KeyUp => simp only [scrollAfter]; split_ifs <;> omega
    | KeyDown => simp only [scrollAfter]; split_ifs <;> omega
    | _ => exact ⟨h0, h1⟩
  | Message x =>
    simp only [inbound, List.length_append, List.length_singleton] at hl
    rw [hl]
    simp only [scrollAfter]
    omega
  | _ =>
    simp only [inbound, List.append_nil] at hl
    rw [hl]
    exact ⟨h0, h1⟩

theorem run_scrollInv (E : Env TI) (evs : List (Draws × Msg)) :
    ∀ m m1 : Main TI, run E evs m = some m1 → scrollInv m → scrollInv m1 := by
  induction evs with
  | nil => intro m m1 h hi; simp [run] at h; subst h; exact hi
  | cons e rest ih =>
    intro m m1 h hi
    obtain ⟨rnd, msg⟩ := e
    simp only [run] at h
    split at h
    · simp at h
    · rename_i m2 cmd h2
      exact ih m2 m1 h (Update_scrollInv E rnd m m2 msg cmd h2 hi)

theorem run_messages (E : Env TI) (evs : List (Draws × Msg)) :
    ∀ m m1 : Main TI, run E evs m = some m1 → m1.messages = m.messages ++ inbound evs := by
  induction evs with
  | nil => intro m m1 h; simp [run] at h; subst h; simp [inbound]
  | cons e rest ih =>
    intro m m1 h
    obtain ⟨rnd, msg⟩ := e
    simp only [run] at h
    split at h
    · simp at h
    · rename_i m2 cmd h2
      rw [ih m2 m1 h, Update_messages E rnd m m2 msg cmd h2]
      cases msg <;> simp [inbound]

/-! ## Scrolling and the message log -/

/-- C1: from any initial model with an empty log and scroll offset 0 (the
model of `New` and of `main`), after every finite sequence of events handled
by `Update` the scroll offset is within `[0, max(0, len(messages)-1)]`, and the
run ends in a model whenever `json.Marshal` does not fail; KeyUp at offset 0,
and KeyDown at offset `len(messages)-1` or on an empty log at offset 0, leave
the offset (and the log) unchanged. -/
theorem C1_scroll_offset_invariant (E : Env TI) :
    (∀ (m0 : Main TI), m0.messages = [] → m0.scrollPos = 0 →
      ∀ evs m1, run E evs m0 = some m1 →
        0 ≤ m1.scrollPos ∧ m1.scrollPos ≤ max 0 ((m1.messages.length : Int) - 1)) ∧
    ((∀ x, (E.Marshal x).isSome = true) →
      ∀ evs (m0 : Main TI), (run E evs m0).isSome = true) ∧
    (∀ rnd (m : Main TI) r, m.scrollPos = 0 →
      ∃ m1 cmd, Update E rnd m (.KeyMsg .KeyUp r) = some (m1, cmd) ∧
        m1.scrollPos = m.scrollPos ∧ m1.messages = m.messages) ∧
    (∀ rnd (m : Main TI) r,
      (m.scrollPos = (m.messages.length : Int) - 1 ∨ (m.messages = [] ∧ m.scrollPos = 0)) →
      ∃ m1 cmd, Update E rnd m (.KeyMsg .KeyDown r) = some (m1, cmd) ∧
        m1.scrollPos = m.scrollPos ∧ m1.messages = m.messages) := by
  refine ⟨?_, ?_, ?_, ?_⟩
  · intro m0 hm hs evs m1 h
    exact run_scrollInv E evs m0 m1 h (by simp [scrollInv, hm, hs])
  · intro hM evs m0
    exact run_isSome E hM evs m0
  · intro rnd m r h0
    have hn : ¬ m.scrollPos > 0 := by omega
    have hU : Update E rnd m (.KeyMsg .KeyUp r) = forwardInput E m (.KeyMsg .KeyUp r) := by
      simp only [Update, if_neg hn]
    exact ⟨_, _, hU, rfl, rfl⟩
  · intro rnd m r h0
    have hn : ¬ m.scrollPos < (m.messages.length : Int) - 1 := by
      rcases h0 with h0 | ⟨h1, h2⟩
      · omega
      · simp [h1, h2]
    have hU : Update E rnd m (.KeyMsg .KeyDown r) = forwardInput E m (.KeyMsg .KeyDown r) := by
      simp only [Update, if_neg hn]
    exact ⟨_, _, hU, rfl, rfl⟩

/-- The startup model, one inbound message, KeyDown, KeyUp, a resize and an
Enter on an empty input: C1 at a concrete run. -/
theorem C1_scroll_offset_invariant_witness :
    ∃ m1, run sampleEnv
        [(zeroDraws, .Message (sampleMessage "hi")), (zeroDraws, .KeyMsg .KeyDown []),
         (zeroDraws, .KeyMsg .KeyUp []), (zeroDraws, .WindowSizeMsg 80 24), (zeroDraws, enter)]
        (startup (typed "") ⟨[]⟩ (str "#AABBCC")) = some m1 ∧
      0 ≤ m1.scrollPos ∧ m1.scrollPos ≤ max 0 ((m1.messages.length : Int) - 1) := by
  have hsome := (C1_scroll_offset_invariant sampleEnv).2.1 (fun _ => rfl)
    [(zeroDraws, .Message (sampleMessage "hi")), (zeroDraws, .KeyMsg .KeyDown []),
     (zeroDraws, .KeyMsg .KeyUp []), (zeroDraws, .WindowSizeMsg 80 24), (zeroDraws, enter)]
    (startup (typed "") ⟨[]⟩ (str "#AABBCC"))
  obtain ⟨m1, h1⟩ := Option.isSome_iff_exists.mp hsome
  exact ⟨m1, h1, (C1_scroll_offset_invariant sampleEnv).1 _ rfl rfl _ m1 h1⟩

/-- C2 as stated fails: after one inbound message the offset 0 is the
bottom-most valid position of a log of length 1; a second inbound message
leaves the offset at 0, which is not the new `len(messages)-1 = 1`. -/
theorem C2_counterexample :
    ∃ m m1 cmd,
      run sampleEnv [(zeroDraws, .Message (sampleMessage "a"))]
        (startup (typed "") ⟨[]⟩ (str "#AABBCC")) = some m ∧
      m.scrollPos = max 0 ((m.messages.length : Int) - 1) ∧
      Update sampleEnv zeroDraws m (.Message (sampleMessage "b")) = some (m1, cmd) ∧
      m1.scrollPos = 0 ∧ (m1.messages.length : Int) - 1 = 1 ∧
      m1.scrollPos ≠ (m1.messages.length : Int) - 1 :=
  ⟨_, _, _, rfl, by decide, rfl, rfl, by decide, by decide⟩

/-- C2 (amended): when the scroll offset is at its bottom-most valid position,
an inbound message is appended to the log and the scroll offset is left
unchanged; the offset equals the new `len(messages)-1` exactly when the log
was empty before. -/
theorem C2_append_keeps_offset (E : Env TI) (rnd : Draws) (m : Main TI) (x : Message)
    (hb : m.scrollPos = max 0 ((m.messages.length : Int) - 1)) :
    ∃ m1 cmd, Update E rnd m (.Message x) = some (m1, cmd) ∧
      m1.messages = m.messages ++ [x] ∧
      m1.scrollPos = m.scrollPos ∧
      (m1.scrollPos = (m1.messages.length : Int) - 1 ↔ m.messages = []) := by
  refine ⟨_, _, rfl, rfl, rfl, ?_⟩
  simp only [List.length_append, List.length_singleton]
  rw [hb]
  cases hm : m.messages with
  | nil => simp
  | cons a l => simp only [List.length_cons]; constructor
                · intro h; omega
                · intro h; simp at h

/-- C2 (amended) on a log of two messages with the offset at the bottom (1):
the third message leaves the offset at 1. -/
theorem C2_append_keeps_offset_witness :
    ∃ m1 cmd,
      Update sampleEnv zeroDraws
        { startup (typed "") ⟨[]⟩ (str "#AABBCC") with
            messages := [sampleMessage "a", sampleMessage "b"], scrollPos := 1 }
        (.Message (sampleMessage "c")) = some (m1, cmd) ∧
      m1.messages = [sampleMessage "a", sampleMessage "b"] ++ [sampleMessage "c"] ∧
      m1.scrollPos = 1 ∧
      (m1.scrollPos = (m1.messages.length : Int) - 1 ↔
        [sampleMessage "a", sampleMessage "b"] = []) :=
  C2_append_keeps_offset sampleEnv zeroDraws
    { startup (typed "") ⟨[]⟩ (str "#AABBCC") with
        messages := [sampleMessage "a", sampleMessage "b"], scrollPos := 1 }
    (sampleMessage "c") (by decide)

/-- C3: Enter on an input whose first byte is `/` writes nothing to the
socket and leaves the message log unchanged; the input is `SetValue("")`
followed by the own handling by the text input of Enter, so the buffer is empty
whenever `SetValue("")` empties it and the text input does not edit on
Enter. -/
theorem C3_command_line_not_sent (E : Env TI) (rnd : Draws) (m : Main TI) (rest : GoString)
    (r : List Char) (hv : E.Value m.input = 47 :: rest) :
    ∃ m1 cmd, Update E rnd m (.KeyMsg .KeyEnter r) = some (m1, cmd) ∧
      m1.user = m.user ∧ m1.messages = m.messages ∧
      m1.input = (E.inputUpdate (E.SetValue m.input []) (.KeyMsg .KeyEnter r)).1 ∧
      ((∀ t, E.Value (E.SetValue t []) = []) →
        (∀ t, E.Value (E.inputUpdate t (.KeyMsg .KeyEnter r)).1 = E.Value t) →
        E.Value m1.input = []) := by
  have hf := checkCommand_frame E rnd m rest
  have hU : Update E rnd m (.KeyMsg .KeyEnter r) =
      forwardInput E { checkCommand E rnd m rest with
        input := E.SetValue (checkCommand E rnd m rest).input [] } (.KeyMsg .KeyEnter r) := by
    simp only [Update, hv, if_true]
  refine ⟨_, _, hU, ?_, ?_, ?_, ?_⟩
  · exact hf.2.2.1
  · exact hf.1
  · simp only [hf.2.2.2.1]
  · intro hs he
    simp only [hf.2.2.2.1, he, hs]

/-- C3 on the input `/nick Alice`. -/
theorem C3_command_line_not_sent_witness :
    ∃ m1 cmd,
      Update sampleEnv zeroDraws (startup (typed "/nick Alice") ⟨[]⟩ (str "#AABBCC")) enter
        = some (m1, cmd) ∧
      m1.user = ⟨[]⟩ ∧ m1.messages = [] ∧ m1.input.value = [] := by
  obtain ⟨m1, cmd, h, hu, hm, -, hc⟩ :=
    C3_command_line_not_sent sampleEnv zeroDraws
      (startup (typed "/nick Alice") ⟨[]⟩ (str "#AABBCC")) (str "nick Alice") [] rfl
  exact ⟨m1, cmd, h, hu, hm, hc (fun _ => rfl) (fun _ => rfl)⟩

/-- C4: whatever events are handled (keys, submits, resizes, inbound
messages), the log at the end is the log at the start followed by the
inbound messages in the order they were handled; and the run ends in a model
whenever `json.Marshal` does not fail. -/
theorem C4_log_append_only (E : Env TI) (evs : List (Draws × Msg)) (m : Main TI) :
    (∀ m1, run E evs m = some m1 → m1.messages = m.messages ++ inbound evs) ∧
    ((∀ x, (E.Marshal x).isSome = true) → ∃ m1, run E evs m = some m1) := by
  refine ⟨fun m1 h => run_messages E evs m m1 h, fun hM => ?_⟩
  exact Option.isSome_iff_exists.mp (run_isSome E hM evs m)

/-- C4 on a run that interleaves two equal inbound messages with a key, a
submitted line and a resize. -/
theorem C4_log_append_only_witness :
    ∃ m1, run sampleEnv
        [(zeroDraws, .Message (sampleMessage "a")), (zeroDraws, .KeyMsg (.other 0) [(120 : Nat).toUInt8.toChar]),
         (zeroDraws, enter), (zeroDraws, .Message (sampleMessage "a")),
         (zeroDraws, .WindowSizeMsg 80 24), (zeroDraws, .Message (sampleMessage "b"))]
        (startup (typed "") ⟨[]⟩ (str "#AABBCC")) = some m1 ∧
      m1.messages = [sampleMessage "a", sampleMessage "a", sampleMessage "b"] := by
  obtain ⟨m1, h⟩ := (C4_log_append_only sampleEnv
    [(zeroDraws, .Message (sampleMessage "a")), (zeroDraws, .KeyMsg (.other 0) [(120 : Nat).toUInt8.toChar]),
     (zeroDraws, enter), (zeroDraws, .Message (sampleMessage "a")),
     (zeroDraws, .WindowSizeMsg 80 24), (zeroDraws, .Message (sampleMessage "b"))]
    (startup (typed "") ⟨[]⟩ (str "#AABBCC"))).2 (fun _ => rfl)
  exact ⟨m1, h, (C4_log_append_only sampleEnv _ _).1 m1 h⟩

/-! ## The generated colour -/

theorem hexValue_upperHexDigit (d : Nat) (h : d < 16) :
    hexValue (upperHexDigit d) = some d ∧ isUpperHexDigit (upperHexDigit d) = true := by
  have key : ∀ k : Fin 16,
      hexValue (upperHexDigit k.val) = some k.val ∧ isUpperHexDigit (upperHexDigit k.val) = true := by
    decide
  exact key ⟨d, h⟩

/-- On a channel value, `%02X` is the two digits of `n` in base 16. -/
theorem fmt02X_channel (n : Nat) (h0 : 100 ≤ n) (h1 : n ≤ 255) :
    fmt02X n = [upperHexDigit (n / 16), upperHexDigit (n % 16)] := by
  obtain ⟨k, rfl⟩ : ∃ k, n = k + 1 := ⟨n - 1, by omega⟩
  have ha : ¬ (k + 1 < 16) := by omega
  have hb : (k + 1) / 16 < 16 := by omega
  simp [fmt02X, hexDigitsUpper, ha, hb]

theorem fmt02X_channel_spec (n : Nat) (h0 : 100 ≤ n) (h1 : n ≤ 255) :
    (fmt02X n).length = 2 ∧ (∀ c ∈ fmt02X n, isUpperHexDigit c = true) ∧
      parseHexPair (fmt02X n) = some n := by
  have hd1 := hexValue_upperHexDigit (n / 16) (by omega)
  have hd2 := hexValue_upperHexDigit (n % 16) (by omega)
  rw [fmt02X_channel n h0 h1]
  refine ⟨rfl, ?_, ?_⟩
  · intro c hc
    simp only [List.mem_cons, List.mem_singleton, List.not_mem_nil, or_false] at hc
    rcases hc with rfl | rfl
    · exact hd1.2
    · exact hd2.2
  · simp only [parseHexPair, hd1.1, hd2.1]
    congr 1
    omega

theorem generatePaleColorHex_wellFormed (d : Draws) (h : d.inRange) :
    wellFormedColor (generatePaleColorHex d) = true := by
  obtain ⟨hr, hg, hb⟩ := h
  have h1 := fmt02X_channel_spec (d.r + 100) (by omega) (by omega)
  have h2 := fmt02X_channel_spec (d.g + 100) (by omega) (by omega)
  have h3 := fmt02X_channel_spec (d.b + 100) (by omega) (by omega)
  have hs : str "#" = [35] := rfl
  simp only [generatePaleColorHex, hs, List.cons_append, List.nil_append, wellFormedColor,
    List.length_append, h1.1, h2.1, h3.1, List.all_append, Bool.and_eq_true, beq_iff_eq,
    List.all_eq_true, isHexDigit, Bool.or_eq_true]
  refine ⟨?_, ⟨?_, ?_⟩, ?_⟩
  · exact ⟨trivial, trivial⟩
  · intro c hc; exact Or.inl (h1.2.1 c hc)
  · intro c hc; exact Or.inl (h2.2.1 c hc)
  · intro c hc; exact Or.inl (h3.2.1 c hc)

theorem Split_randomcolor : Split (str "randomcolor") = [str "randomcolor"] := rfl

/-- C6: for all three draws in `[0,155]`, `generatePaleColorHex` returns `#`
followed by three pairs of upper-case hexadecimal digits, seven bytes in all,
each pair reading as its channel value `draw + 100`, which lies in
`[100,255]`; the command `randomcolor` assigns that string to both
`usernameColor` and `roleColor` (and changes nothing else). -/
theorem C6_pale_color_format (E : Env TI) (d : Draws) (m : Main TI)
    (hr : d.r < 156) (hg : d.g < 156) (hb : d.b < 156) :
    (∃ p1 p2 p3 : GoString,
      generatePaleColorHex d = str "#" ++ p1 ++ p2 ++ p3 ∧
      p1.length = 2 ∧ p2.length = 2 ∧ p3.length = 2 ∧
      (∀ c ∈ p1 ++ p2 ++ p3, isUpperHexDigit c = true) ∧
      parseHexPair p1 = some (d.r + 100) ∧ parseHexPair p2 = some (d.g + 100) ∧
      parseHexPair p3 = some (d.b + 100)) ∧
    (generatePaleColorHex d).length = 7 ∧
    (100 ≤ d.r + 100 ∧ d.r + 100 ≤ 255) ∧ (100 ≤ d.g + 100 ∧ d.g + 100 ≤ 255) ∧
    (100 ≤ d.b + 100 ∧ d.b + 100 ≤ 255) ∧
    checkCommand E d m (str "randomcolor") =
      { m with usernameColor := generatePaleColorHex d, roleColor := generatePaleColorHex d } := by
  have h1 := fmt02X_channel_spec (d.r + 100) (by omega) (by omega)
  have h2 := fmt02X_channel_spec (d.g + 100) (by omega) (by omega)
  have h3 := fmt02X_channel_spec (d.b + 100) (by omega) (by omega)
  refine ⟨⟨fmt02X (d.r + 100), fmt02X (d.g + 100), fmt02X (d.b + 100), rfl, h1.1, h2.1, h3.1,
    ?_, h1.2.2, h2.2.2, h3.2.2⟩, ?_, ⟨by omega, by omega⟩, ⟨by omega, by omega⟩,
    ⟨by omega, by omega⟩, ?_⟩
  · intro c hc
    simp only [List.mem_append] at hc
    rcases hc with (hc | hc) | hc
    · exact h1.2.1 c hc
    · exact h2.2.1 c hc
    · exact h3.2.1 c hc
  · have hs : (str "#").length = 1 := rfl
    simp only [generatePaleColorHex, List.length_append, h1.1, h2.1, h3.1, hs]
  · simp only [checkCommand, Split_randomcolor]
    rfl

/-- C6 at the draws 0, 155 and 55: the colour is `#64FF9B`. -/
theorem C6_pale_color_format_witness :
    generatePaleColorHex ⟨0, 155, 55⟩ = str "#64FF9B" ∧
    (generatePaleColorHex ⟨0, 155, 55⟩).length = 7 ∧
    (checkCommand sampleEnv ⟨0, 155, 55⟩ (startup (typed "") ⟨[]⟩ (str "#AABBCC"))
      (str "randomcolor")).roleColor = str "#64FF9B" := by
  have h := C6_pale_color_format sampleEnv ⟨0, 155, 55⟩
    (startup (typed "") ⟨[]⟩ (str "#AABBCC")) (by decide) (by decide) (by decide)
  refine ⟨rfl, h.2.1, ?_⟩
  rw [h.2.2.2.2.2]
  rfl

/-! ## Formatting -/

/-- C9: with `lipgloss` rendering left abstract, `Format` of a message with an
empty `RoleName` is the sender segment, `": "` and the content, with no badge
segment; with a non-empty `RoleName` it is the badge, then the sender segment,
then `": "` and the content unmodified. -/
theorem C9_format_layout (Render : Style → GoString → GoString) (cm : Message) :
    (cm.RoleName = [] →
      cm.Format Render =
        styledSender Render cm.SenderName cm.SenderColor ++ str ": " ++ cm.Content) ∧
    (cm.RoleName ≠ [] →
      cm.Format Render =
        badge Render cm.RoleName cm.RoleColor
          ++ styledSender Render cm.SenderName cm.SenderColor ++ str ": " ++ cm.Content) := by
  constructor
  · intro h
    simp only [Message.Format, if_pos h]
    rfl
  · intro h
    simp only [Message.Format, if_neg h]
    rfl

/-- C9 on a message without a role and on one with the role `ADMIN`. -/
theorem C9_format_layout_witness :
    Message.Format sampleEnv.Render ⟨[], str "#FF0000", str "Bob", str "#00FF00", str "hi"⟩
      = str "Bob: hi" ∧
    Message.Format sampleEnv.Render
        ⟨str "ADMIN", str "#FF0000", str "Bob", str "#00FF00", str "hi"⟩
      = str " ADMIN  Bob: hi" := by
  have h1 := (C9_format_layout sampleEnv.Render
    ⟨[], str "#FF0000", str "Bob", str "#00FF00", str "hi"⟩).1 rfl
  have h2 := (C9_format_layout sampleEnv.Render
    ⟨str "ADMIN", str "#FF0000", str "Bob", str "#00FF00", str "hi"⟩).2 (by decide)
  exact ⟨h1.trans rfl, h2.trans rfl⟩

/-! ## Submitted lines -/

theorem checkCommand_nick_Alice (E : Env TI) (rnd : Draws) (m : Main TI) :
    checkCommand E rnd m (str "nick Alice") = { m with username := str "Alice" } := rfl

/-- C5: from the startup model with colour `c` and nothing written to the
socket, submitting `/nick Alice` and then `hello` leaves exactly one frame on
the socket, the encoding of the message with `RoleName = ""`, `RoleColor = c`,
`SenderName = "Alice"`, `SenderColor = c` and content `hello` (the command
line itself writes nothing), and `Format` of that message has no badge. -/
theorem C5_nick_then_hello (E : Env TI) (rnd1 rnd2 : Draws) (input0 ti1 ti2 : TI)
    (c frame : GoString)
    (h1 : E.Value ti1 = str "/nick Alice") (h2 : E.Value ti2 = str "hello")
    (hM : E.Marshal ⟨[], c, str "Alice", c, str "hello"⟩ = some frame) :
    ∃ m1 m2,
      submitLine E rnd1 ti1 (startup input0 ⟨[]⟩ c) = some m1 ∧
      m1.user.written = [] ∧
      newMessage m1 (E.Value ti2) = ⟨[], c, str "Alice", c, str "hello"⟩ ∧
      submitLine E rnd2 ti2 m1 = some m2 ∧
      session E [(rnd1, ti1), (rnd2, ti2)] (startup input0 ⟨[]⟩ c) = some m2 ∧
      m2.user.written = [(TextMessage, frame)] ∧
      m2.messages = [] ∧
      Message.Format E.Render ⟨[], c, str "Alice", c, str "hello"⟩ =
        styledSender E.Render (str "Alice") c ++ str ": " ++ str "hello" := by
  have e1 : str "/nick Alice" = 47 :: str "nick Alice" := rfl
  have e2 : str "hello" = 104 :: str "ello" := rfl
  have ne : ¬ ((104 : UInt8) = 47) := by decide
  have hM1 : E.Marshal ⟨[], c, str "Alice", c, 104 :: str "ello"⟩ = some frame := hM
  have s1 : submitLine E rnd1 ti1 (startup input0 ⟨[]⟩ c) =
      some { startup input0 ⟨[]⟩ c with
        username := str "Alice"
        input := (E.inputUpdate (E.SetValue ti1 []) enter).1 } := by
    simp only [submitLine, enter, Update, h1, e1, if_true, checkCommand_nick_Alice, forwardInput,
      Option.map_some']
  have hn : newMessage ({ startup input0 ⟨[]⟩ c with
        username := str "Alice"
        input := ti2 } : Main TI) (104 :: str "ello") = ⟨[], c, str "Alice", c, str "hello"⟩ := rfl
  have s2 : submitLine E rnd2 ti2 { startup input0 ⟨[]⟩ c with
        username := str "Alice"
        input := (E.inputUpdate (E.SetValue ti1 []) enter).1 } =
      some { startup input0 ⟨[]⟩ c with
        username := str "Alice"
        user := ⟨[(TextMessage, frame)]⟩
        input := (E.inputUpdate (E.SetValue ti2 []) enter).1 } := by
    simp only [submitLine, enter, Update, h2, e2, if_neg ne, hn, hM1, forwardInput,
      Option.map_some']
    rfl
  refine ⟨_, _, s1, rfl, ?_, s2, ?_, rfl, rfl, rfl⟩
  · rw [h2]; rfl
  · simp only [session, s1, s2]

/-- C5 on the concrete libraries, with the generated colour `#64FF9B`. -/
theorem C5_nick_then_hello_witness :
    ∃ m2,
      session sampleEnv [(zeroDraws, typed "/nick Alice"), (zeroDraws, typed "hello")]
        (startup (typed "") ⟨[]⟩ (str "#64FF9B")) = some m2 ∧
      m2.user.written =
        [(TextMessage,
          sampleMarshal ⟨[], str "#64FF9B", str "Alice", str "#64FF9B", str "hello"⟩)] := by
  obtain ⟨m1, m2, -, -, -, -, hs, hw, -⟩ :=
    C5_nick_then_hello sampleEnv zeroDraws zeroDraws (typed "") (typed "/nick Alice")
      (typed "hello") (str "#64FF9B")
      (sampleMarshal ⟨[], str "#64FF9B", str "Alice", str "#64FF9B", str "hello"⟩) rfl rfl rfl
  exact ⟨m2, hs, hw⟩

/-! ## Splitting a command line -/

theorem splitFrom_noSpace (t : GoString) (ht : (32 : UInt8) ∉ t) :
    ∀ cur, splitFrom cur t = [cur ++ t] := by
  induction t with
  | nil => intro cur; simp [splitFrom]
  | cons c cs ih =>
    intro cur
    have hc : ¬ (c = 32) := fun h => ht (by simp [h])
    have hcs : (32 : UInt8) ∉ cs := fun h => ht (List.mem_cons_of_mem _ h)
    simp only [splitFrom, if_neg hc, ih hcs, List.append_assoc, List.singleton_append]

theorem splitFrom_upto_space (a r : GoString) (ha : (32 : UInt8) ∉ a) :
    ∀ cur, splitFrom cur (a ++ 32 :: r) = (cur ++ a) :: splitFrom [] r := by
  induction a with
  | nil => intro cur; simp [splitFrom]
  | cons c cs ih =>
    intro cur
    have hc : ¬ (c = 32) := fun h => ha (by simp [h])
    have hcs : (32 : UInt8) ∉ cs := fun h => ha (List.mem_cons_of_mem _ h)
    rw [List.cons_append]
    simp only [splitFrom, if_neg hc]
    rw [ih hcs]
    simp

/-- The first two pieces do not depend on what follows the second piece. -/
theorem splitFrom_take_two (a r : GoString) (ha : (32 : UInt8) ∉ a) :
    ∀ x cur, (splitFrom cur (x ++ 32 :: (a ++ 32 :: r))).take 2 =
      (splitFrom cur (x ++ 32 :: a)).take 2 := by
  intro x
  induction x with
  | nil =>
    intro cur
    simp only [List.nil_append, splitFrom, if_true, splitFrom_upto_space a r ha,
      splitFrom_noSpace a ha, List.nil_append]
    rfl
  | cons c cs ih =>
    intro cur
    by_cases hc : c = 32
    · subst hc
      simp only [List.cons_append, splitFrom, if_true]
      have h1 := congrArg (List.take 1) (ih [])
      simp only [List.take_take] at h1
      simpa using h1
    · simp only [List.cons_append, splitFrom, if_neg hc]
      exact ih (cur ++ [c])

theorem checkCommand_congr (E : Env TI) (rnd : Draws) (m : Main TI) (c1 c2 : GoString)
    (h : (Split c1).take 2 = (Split c2).take 2) :
    checkCommand E rnd m c1 = checkCommand E rnd m c2 := by
  have hh : (Split c1).headD [] = (Split c2).headD [] := by
    have := congrArg (fun l => l.headD ([] : GoString)) h
    simpa [List.headD_eq_head?_getD, List.head?_take] using this
  have ha : ∀ c, (if (Split c).length > 1 then (Split c).getD 1 [] else []) =
      ((Split c).take 2).getD 1 ([] : GoString) := by
    intro c
    rcases hs : Split c with _ | ⟨p, _ | ⟨q, l⟩⟩ <;> simp
  simp only [checkCommand, ha, h, hh]

/-- C10: when the argument `a` contains no space, `checkCommand` on
`n a r` and on `n a` give the same model, whatever the name `n` and the
trailing text `r` are; and when `n` contains no space either, the command
name read is `n` and the argument read is `a`. -/
theorem C10_trailing_text_ignored (E : Env TI) (rnd : Draws) (m : Main TI) (n a r : GoString)
    (ha : (32 : UInt8) ∉ a) :
    checkCommand E rnd m (n ++ str " " ++ a ++ str " " ++ r) =
      checkCommand E rnd m (n ++ str " " ++ a) ∧
    ((32 : UInt8) ∉ n →
      (Split (n ++ str " " ++ a ++ str " " ++ r)).headD [] = n ∧
      (Split (n ++ str " " ++ a ++ str " " ++ r)).getD 1 [] = a ∧
      Split (n ++ str " " ++ a) = [n, a]) := by
  have hs : str " " = [32] := rfl
  have e1 : n ++ str " " ++ a ++ str " " ++ r = n ++ 32 :: (a ++ 32 :: r) := by
    simp [hs]
  have e2 : n ++ str " " ++ a = n ++ 32 :: a := by simp [hs]
  rw [e1, e2]
  refine ⟨checkCommand_congr E rnd m _ _ (splitFrom_take_two a r ha n []), ?_⟩
  intro hn
  simp only [Split, splitFrom_upto_space n _ hn, splitFrom_upto_space a r ha,
    splitFrom_noSpace a ha, List.nil_append]
  simp

/-- C10 on `nick Alice and more text`: the name set is `Alice`. -/
theorem C10_trailing_text_ignored_witness :
    checkCommand sampleEnv zeroDraws (startup (typed "") ⟨[]⟩ (str "#AABBCC"))
        (str "nick Alice and more text") =
      { startup (typed "") ⟨[]⟩ (str "#AABBCC") with username := str "Alice" } := by
  have h := (C10_trailing_text_ignored sampleEnv zeroDraws
    (startup (typed "") ⟨[]⟩ (str "#AABBCC")) (str "nick") (str "Alice")
    (str "and more text") (by decide)).1
  exact h.trans rfl

/-! ## What a submitted line does -/

theorem checkCommand_input (E : Env TI) (rnd : Draws) (m : Main TI) (ti : TI)
    (command : GoString) :
    checkCommand E rnd { m with input := ti } command =
      { checkCommand E rnd m command with input := ti } := by
  simp only [checkCommand]
  split_ifs <;> rfl

/-- A submitted command line: the command is interpreted and the input reset. -/
theorem submitLine_command (E : Env TI) (rnd : Draws) (ti : TI) (m : Main TI)
    (rest : GoString) (hv : E.Value ti = 47 :: rest) :
    submitLine E rnd ti m =
      some { checkCommand E rnd m rest with
        input := (E.inputUpdate (E.SetValue ti []) enter).1 } := by
  simp only [submitLine, enter, Update, hv, if_true, forwardInput, Option.map_some',
    checkCommand_input]

/-- A submitted message line: the encoded message is written and the input
reset. -/
theorem submitLine_message (E : Env TI) (rnd : Draws) (ti : TI) (m : Main TI)
    (c : UInt8) (rest frame : GoString) (hv : E.Value ti = c :: rest) (hc : c ≠ 47)
    (hM : E.Marshal (newMessage m (c :: rest)) = some frame) :
    submitLine E rnd ti m =
      some { m with
        user := m.user.WriteMessage TextMessage frame
        input := (E.inputUpdate (E.SetValue ti []) enter).1 } := by
  have hM1 : E.Marshal (newMessage { m with input := ti } (c :: rest)) = some frame := hM
  simp only [submitLine, enter, Update, hv, if_neg hc, hM1, forwardInput, Option.map_some']

/-- A submit on an empty input only reaches the text input. -/
theorem submitLine_empty (E : Env TI) (rnd : Draws) (ti : TI) (m : Main TI)
    (hv : E.Value ti = []) :
    submitLine E rnd ti m = some { m with input := (E.inputUpdate ti enter).1 } := by
  simp only [submitLine, enter, Update, hv, forwardInput, Option.map_some']

theorem checkCommand_role (E : Env TI) (rnd : Draws) (m : Main TI) (t : GoString)
    (ht : (32 : UInt8) ∉ t) :
    checkCommand E rnd m (str "role " ++ t) = { m with role := ToUpper E.mapUpper t } := by
  have e : str "role " ++ t = str "role" ++ 32 :: t := rfl
  have hr : (32 : UInt8) ∉ str "role" := by decide
  have hs : Split (str "role " ++ t) = [str "role", t] := by
    rw [e]
    simp only [Split, splitFrom_upto_space (str "role") t hr, splitFrom_noSpace t ht,
      List.nil_append]
  have h1 : ¬ (str "role" = str "nick") := by decide
  simp only [checkCommand, hs, List.headD_cons, List.length_cons, List.length_nil, if_neg h1,
    if_true]
  rfl

/-- C7: for every text `t` without a space the command `role t` sets `role` to
`strings.ToUpper(t)` and changes nothing else; submitted as the line
`/role t`, it writes nothing, and the next submitted message line writes the
encoding of a message whose `RoleName` is `strings.ToUpper(t)`, the other
fields being the unchanged attributes; when that role is not empty, `Format`
renders it as the badge text; on ASCII text `strings.ToUpper` is the byte-wise
upper-casing, so `foo`, `Foo` and `FOO` all give `FOO`. -/
theorem C7_role_upper_cased (E : Env TI) (rnd1 rnd2 : Draws) (m : Main TI) (t : GoString)
    (ti1 ti2 : TI) (c : UInt8) (rest frame : GoString)
    (ht : (32 : UInt8) ∉ t)
    (h1 : E.Value ti1 = str "/role " ++ t)
    (h2 : E.Value ti2 = c :: rest) (hc : c ≠ 47)
    (hM : E.Marshal ⟨ToUpper E.mapUpper t, m.roleColor, m.username, m.usernameColor, c :: rest⟩
      = some frame) :
    checkCommand E rnd1 m (str "role " ++ t) = { m with role := ToUpper E.mapUpper t } ∧
    (∃ m1 m2,
      submitLine E rnd1 ti1 m = some m1 ∧
      m1 = { m with role := ToUpper E.mapUpper t, input := m1.input } ∧
      newMessage m1 (E.Value ti2) =
        ⟨ToUpper E.mapUpper t, m.roleColor, m.username, m.usernameColor, c :: rest⟩ ∧
      submitLine E rnd2 ti2 m1 = some m2 ∧
      m2.user.written = m.user.written ++ [(TextMessage, frame)]) ∧
    (ToUpper E.mapUpper t ≠ [] →
      Message.Format E.Render
          ⟨ToUpper E.mapUpper t, m.roleColor, m.username, m.usernameColor, c :: rest⟩ =
        badge E.Render (ToUpper E.mapUpper t) m.roleColor
          ++ styledSender E.Render m.username m.usernameColor ++ str ": " ++ (c :: rest)) ∧
    (isASCII t = true → ToUpper E.mapUpper t = t.map upperByte) ∧
    ToUpper E.mapUpper (str "foo") = str "FOO" ∧
    ToUpper E.mapUpper (str "Foo") = str "FOO" ∧
    ToUpper E.mapUpper (str "FOO") = str "FOO" := by
  have hcmd := checkCommand_role E rnd1 m t ht
  have e1 : str "/role " ++ t = 47 :: (str "role " ++ t) := rfl
  have s1 := submitLine_command E rnd1 ti1 m (str "role " ++ t) (h1.trans e1)
  rw [hcmd] at s1
  have s2 := submitLine_message E rnd2 ti2
    { m with role := ToUpper E.mapUpper t, input := (E.inputUpdate (E.SetValue ti1 []) enter).1 }
    c rest frame h2 hc hM
  refine ⟨hcmd, ⟨_, _, s1, rfl, ?_, s2, rfl⟩, ?_, ?_, rfl, rfl, rfl⟩
  · rw [h2]; rfl
  · intro hne
    simp only [Message.Format, if_neg hne]
    rfl
  · intro ha
    simp only [ToUpper, ha, if_true]

/-- C7 on the line `/role Foo` followed by the line `hi`, from the startup
model: the frame written carries the role `FOO`. -/
theorem C7_role_upper_cased_witness :
    ∃ m1 m2,
      submitLine sampleEnv zeroDraws (typed "/role Foo")
        (startup (typed "") ⟨[]⟩ (str "#AABBCC")) = some m1 ∧
      m1.role = str "FOO" ∧
      submitLine sampleEnv zeroDraws (typed "hi") m1 = some m2 ∧
      m2.user.written =
        [(TextMessage,
          sampleMarshal ⟨str "FOO", str "#AABBCC", str "Anonymous", str "#AABBCC", str "hi"⟩)] := by
  obtain ⟨-, ⟨m1, m2, h1, h2, -, h3, h4⟩, -⟩ :=
    C7_role_upper_cased sampleEnv zeroDraws zeroDraws (startup (typed "") ⟨[]⟩ (str "#AABBCC"))
      (str "Foo") (typed "/role Foo") (typed "hi") 104 (str "i")
      (sampleMarshal ⟨str "FOO", str "#AABBCC", str "Anonymous", str "#AABBCC", str "hi"⟩)
      (by decide) rfl rfl (by decide) rfl
  refine ⟨m1, m2, h1, ?_, h3, h4⟩
  rw [h2]
  rfl

/-! ## Colour values of outgoing messages -/

theorem wellFormedColor_ne_nil (s : GoString) (h : wellFormedColor s = true) : s ≠ [] := by
  intro hs
  subst hs
  simp [wellFormedColor] at h

theorem checkCommand_colorsOk (E : Env TI) (rnd : Draws) (m : Main TI) (command : GoString)
    (hr : rnd.inRange) (hc : commandColorOk command = true) (hm : colorsOk m = true) :
    colorsOk (checkCommand E rnd m command) = true := by
  have hg := generatePaleColorHex_wellFormed rnd hr
  have harg : (if (Split command).length > 1 then (Split command).getD 1 [] else []) =
      (Split command).getD 1 ([] : GoString) := by
    rcases hs : Split command with _ | ⟨p, _ | ⟨q, l⟩⟩ <;> simp
  simp only [commandColorOk, isColorCommand, Bool.or_eq_true, Bool.not_eq_true', beq_iff_eq,
    Bool.or_eq_false_iff, beq_eq_false_iff_ne] at hc
  simp only [colorsOk, Bool.and_eq_true] at hm ⊢
  have hw : ∀ name, (Split command).headD [] = name →
      (name = str "color" ∨ name = str "nickcolor" ∨ name = str "rolecolor") →
      wellFormedColor ((Split command).getD 1 []) = true := by
    intro name hn hname
    rcases hc with hc | hc
    · rw [hn] at hc
      rcases hname with h | h | h
      · exact absurd h hc.1.1
      · exact absurd h hc.1.2
      · exact absurd h hc.2
    · exact hc
  simp only [checkCommand, harg]
  split_ifs with h1 h2 h3 h4 h5 h6
  · exact hm
  · exact hm
  · exact ⟨hw _ h3 (Or.inl rfl), hw _ h3 (Or.inl rfl)⟩
  · exact ⟨hm.1, hw _ h4 (Or.inr (Or.inl rfl))⟩
  · exact ⟨hw _ h5 (Or.inr (Or.inr rfl)), hm.2⟩
  · exact ⟨hg, hg⟩
  · exact hm

theorem submitLine_colorsOk (E : Env TI) (rnd : Draws) (ti : TI) (m m1 : Main TI)
    (hr : rnd.inRange) (hl : lineColorOk (E.Value ti) = true) (hm : colorsOk m = true)
    (h : submitLine E rnd ti m = some m1) : colorsOk m1 = true := by
  rcases hv : E.Value ti with _ | ⟨c, rest⟩
  · rw [submitLine_empty E rnd ti m hv] at h
    simp only [Option.some.injEq] at h
    subst h
    exact hm
  · by_cases hc : c = 47
    · subst hc
      rw [submitLine_command E rnd ti m rest hv] at h
      simp only [Option.some.injEq] at h
      subst h
      rw [hv] at hl
      have hl1 : commandColorOk rest = true := by simpa [lineColorOk] using hl
      exact checkCommand_colorsOk E rnd m rest hr hl1 hm
    · cases hM : E.Marshal (newMessage m (c :: rest)) with
      | none =>
        have hM1 : E.Marshal (newMessage { m with input := ti } (c :: rest)) = none := hM
        simp [submitLine, enter, Update, hv, if_neg hc, hM1] at h
      | some frame =>
        rw [submitLine_message E rnd ti m c rest frame hv hc hM] at h
        simp only [Option.some.injEq] at h
        subst h
        exact hm

theorem session_colorsOk (E : Env TI) (lines : List (Draws × TI)) :
    ∀ m m1 : Main TI, (∀ p ∈ lines, p.1.inRange ∧ lineColorOk (E.Value p.2) = true) →
      colorsOk m = true → session E lines m = some m1 → colorsOk m1 = true := by
  induction lines with
  | nil => intro m m1 _ hm h; simp [session] at h; subst h; exact hm
  | cons p rest ih =>
    intro m m1 hl hm h
    obtain ⟨rnd, ti⟩ := p
    simp only [session] at h
    split at h
    · simp at h
    · rename_i m2 h2
      have hp := hl (rnd, ti) (by simp)
      exact ih m2 m1 (fun q hq => hl q (List.mem_cons_of_mem _ hq))
        (submitLine_colorsOk E rnd ti m m2 hp.1 hp.2 hm h2) h

theorem submitLine_isSome (E : Env TI) (hM : ∀ x, (E.Marshal x).isSome = true) (rnd : Draws)
    (ti : TI) (m : Main TI) : (submitLine E rnd ti m).isSome = true := by
  have := Update_isSome E hM rnd { m with input := ti } enter
  simp only [submitLine, Option.isSome_map']
  exact this

theorem session_isSome (E : Env TI) (hM : ∀ x, (E.Marshal x).isSome = true)
    (lines : List (Draws × TI)) : ∀ m : Main TI, (session E lines m).isSome = true := by
  induction lines with
  | nil => intro m; rfl
  | cons p rest ih =>
    intro m
    obtain ⟨rnd, ti⟩ := p
    have := submitLine_isSome E hM rnd ti m
    rw [Option.isSome_iff_exists] at this
    obtain ⟨m1, h1⟩ := this
    simp only [session, h1]
    exact ih m1

/-- C8 as stated fails: from the startup model with a generated colour, the
lines `/role admin` and `/color` leave both colour attributes empty, and the
message constructed by the next submit (`hi`) has the non-empty role `ADMIN`
and the empty string as `RoleColor` and as `SenderColor`. -/
theorem C8_counterexample :
    ∃ m1 m2,
      session sampleEnv [(zeroDraws, typed "/role admin"), (zeroDraws, typed "/color")]
        (startup (typed "") ⟨[]⟩ (generatePaleColorHex zeroDraws)) = some m1 ∧
      newMessage m1 (str "hi") = ⟨str "ADMIN", [], str "Anonymous", [], str "hi"⟩ ∧
      submitLine sampleEnv zeroDraws (typed "hi") m1 = some m2 ∧
      m2.user.written =
        [(TextMessage, sampleMarshal ⟨str "ADMIN", [], str "Anonymous", [], str "hi"⟩)] ∧
      (newMessage m1 (str "hi")).RoleName ≠ [] ∧
      (newMessage m1 (str "hi")).RoleColor = [] ∧
      (newMessage m1 (str "hi")).SenderColor = [] ∧
      wellFormedColor (newMessage m1 (str "hi")).RoleColor = false :=
  ⟨_, _, rfl, rfl, rfl, rfl, by decide, rfl, rfl, rfl⟩

/-- C8 (amended): from the startup model with a generated colour, after every
sequence of typed lines in which each `color`, `nickcolor` or `rolecolor`
command has a well-formed colour value as its argument (and each random draw
is a result of `rng.Intn(156)`), the message constructed from any input text
has well-formed `RoleColor` and `SenderColor`, neither of them empty; a
submitted message line writes the encoding of exactly that message; and the
session ends in a model whenever `json.Marshal` does not fail. -/
theorem C8_colors_well_formed (E : Env TI) (input0 : TI) (conn : Conn) (d0 : Draws)
    (lines : List (Draws × TI)) (h0 : d0.inRange)
    (hl : ∀ p ∈ lines, p.1.inRange ∧ lineColorOk (E.Value p.2) = true) :
    (∀ m1, session E lines (startup input0 conn (generatePaleColorHex d0)) = some m1 →
      (∀ value,
        wellFormedColor (newMessage m1 value).RoleColor = true ∧
        wellFormedColor (newMessage m1 value).SenderColor = true ∧
        (newMessage m1 value).RoleColor ≠ [] ∧ (newMessage m1 value).SenderColor ≠ []) ∧
      (∀ rnd ti c rest m2, E.Value ti = c :: rest → c ≠ 47 →
        submitLine E rnd ti m1 = some m2 →
        ∃ frame, E.Marshal (newMessage m1 (c :: rest)) = some frame ∧
          m2.user.written = m1.user.written ++ [(TextMessage, frame)])) ∧
    ((∀ x, (E.Marshal x).isSome = true) →
      ∃ m1, session E lines (startup input0 conn (generatePaleColorHex d0)) = some m1) := by
  have hg := generatePaleColorHex_wellFormed d0 h0
  refine ⟨fun m1 h => ⟨?_, ?_⟩, fun hM => ?_⟩
  · have hc : colorsOk m1 = true :=
      session_colorsOk E lines _ m1 hl (by simp only [colorsOk, startup, hg, Bool.and_self]) h
    simp only [colorsOk, Bool.and_eq_true] at hc
    intro value
    exact ⟨hc.1, hc.2, wellFormedColor_ne_nil _ hc.1, wellFormedColor_ne_nil _ hc.2⟩
  · intro rnd ti c rest m2 hv hc hs
    cases hM : E.Marshal (newMessage m1 (c :: rest)) with
    | none =>
      have hM1 : E.Marshal (newMessage { m1 with input := ti } (c :: rest)) = none := hM
      simp [submitLine, enter, Update, hv, if_neg hc, hM1] at hs
    | some frame =>
      rw [submitLine_message E rnd ti m1 c rest frame hv hc hM] at hs
      simp only [Option.some.injEq] at hs
      subst hs
      exact ⟨frame, rfl, rfl⟩
  · exact Option.isSome_iff_exists.mp (session_isSome E hM lines _)

/-- C8 (amended) on the lines `/role admin`, `/color #ff00aa`, `/randomcolor`
and `/nickcolor #123ABC`: the next message has well-formed colours. -/
theorem C8_colors_well_formed_witness :
    ∃ m1,
      session sampleEnv
        [(zeroDraws, typed "/role admin"), (zeroDraws, typed "/color #ff00aa"),
         (⟨1, 2, 3⟩, typed "/randomcolor"), (zeroDraws, typed "/nickcolor #123ABC")]
        (startup (typed "") ⟨[]⟩ (generatePaleColorHex ⟨0, 155, 55⟩)) = some m1 ∧
      wellFormedColor (newMessage m1 (str "hi")).RoleColor = true ∧
      wellFormedColor (newMessage m1 (str "hi")).SenderColor = true ∧
      (newMessage m1 (str "hi")).RoleColor ≠ [] ∧ (newMessage m1 (str "hi")).SenderColor ≠ [] := by
  have h := C8_colors_well_formed sampleEnv (typed "") ⟨[]⟩ ⟨0, 155, 55⟩
    [(zeroDraws, typed "/role admin"), (zeroDraws, typed "/color #ff00aa"),
     (⟨1, 2, 3⟩, typed "/randomcolor"), (zeroDraws, typed "/nickcolor #123ABC")]
    (by decide) (by decide)
  obtain ⟨m1, hm1⟩ := h.2 (fun _ => rfl)
  exact ⟨m1, hm1, (h.1 m1 hm1).1 (str "hi")⟩

end SshatClient
